import Mathlib

/-!
Shallow embedding of `analysis.go` (package `analysis`): the chain/event data
model, the event-log line parser, the response-time extraction loop, the
statistics aggregation, and the chain-building helper.

Conventions of the embedding:
* Go `int` is modelled as `Int` (timestamps and counts in the analysed logs
  stay far below the 64-bit range, so wrap-around is not modelled).
* Go `float64` fields (`Utilisation`, `Merge_p`, `Sync_p`, `Variance`) are
  pure pass-through payload for the analysis; they are modelled as `Rat`.
* A Go runtime panic (modulo by zero, index out of range) is modelled by an
  `Option`-valued function returning `none`.
* Go functions returning `(value, error)` are modelled with `Except`; the
  stderr diagnostics of `Analyze` are modelled as structured values.
-/

/-- Event: one log call event (`type Event struct`). -/
structure Event where
  Executor : Int
  Chain : Int
  Callback : Int
  Start_us : Int
  Duration_us : Int
deriving DecidableEq

instance : Inhabited Event := ⟨⟨0, 0, 0, 0, 0⟩⟩

/-- Chain: one call chain (`type Chain struct`). -/
structure Chain where
  ID : Int
  Prio : Int
  Path : List Int
  Period_us : Int
  Utilisation : Rat
  Random_seed : Int
  PPE : Bool
  Avg_len : Int
  Merge_p : Rat
  Sync_p : Rat
  Variance : Rat
deriving DecidableEq

instance : Inhabited Chain := ⟨⟨0, 0, [], 0, 0, 0, false, 0, 0, 0, 0⟩⟩

/-- Result: the analysis output for one chain (`type Result struct`). -/
structure Result where
  ID : Int
  WCRT_us : Int
  ACRT_us : Int
  BCRT_us : Int
deriving DecidableEq

/-- splitIndex: index of the first opening brace of the line; the Go scan
loop of `parse_event` leaves `split = 0` when no brace occurs. ('\x7b' is the
opening-brace character.) -/
def splitIndex (line : List Char) : Nat :=
  match line.findIdx? (fun b => b = '\x7b') with
  | some i => i
  | none => 0

/-- skipSpaces: drop leading space characters (Go scanning skips spaces
before a verb, and a space in a scan format matches a run of spaces). -/
def skipSpaces (s : List Char) : List Char :=
  s.dropWhile (fun c => c = ' ')

/-- scanInt: the `%d` verb of `fmt.Sscanf`: skip leading spaces, then an
optional minus sign and at least one decimal digit. -/
def scanInt (s0 : List Char) : Option (Int × List Char) :=
  let s := skipSpaces s0
  let p : Bool × List Char :=
    match s with
    | '-' :: rest => (true, rest)
    | _ => (false, s)
  let ds := p.2.takeWhile (fun c => c.isDigit)
  let rest := p.2.dropWhile (fun c => c.isDigit)
  if ds.isEmpty then none
  else
    let v : Nat := ds.foldl (fun acc c => acc * 10 + (c.toNat - '0'.toNat)) 0
    some (if p.1 then -(v : Int) else (v : Int), rest)

/-- FmtTok: one element of a scan format: a literal character, a space
(matching a run of spaces), or a `%d` verb. -/
inductive FmtTok
  | lit (c : Char)
  | ws
  | int
deriving DecidableEq

/-- tokify: literal format text as tokens, spaces becoming `ws` tokens. -/
def tokify (s : String) : List FmtTok :=
  s.toList.map (fun c => if c = ' ' then FmtTok.ws else FmtTok.lit c)

/-- fmtEvent: the fixed scan format string of `parse_event`:
`\x7bexecutor: %d, chain: %d, callback: %d, start: %d, duration: %d\x7d`. -/
def fmtEvent : List FmtTok :=
  tokify "\x7bexecutor:" ++ [FmtTok.ws, FmtTok.int] ++
  tokify ", chain:" ++ [FmtTok.ws, FmtTok.int] ++
  tokify ", callback:" ++ [FmtTok.ws, FmtTok.int] ++
  tokify ", start:" ++ [FmtTok.ws, FmtTok.int] ++
  tokify ", duration:" ++ [FmtTok.ws, FmtTok.int] ++
  tokify "\x7d"

/-- runFmt: match a scan format against the input, returning the integers
read and the remaining input. A failed literal or verb fails the whole scan,
which is how a short `fmt.Sscanf` match surfaces through `matched != 5` or a
non-nil scan error. -/
def runFmt : List FmtTok → List Char → Option (List Int × List Char)
  | [], s => some ([], s)
  | FmtTok.lit c :: ts, x :: s => if x = c then runFmt ts s else none
  | FmtTok.lit _ :: _, [] => none
  | FmtTok.ws :: ts, s => runFmt ts (skipSpaces s)
  | FmtTok.int :: ts, s =>
    match scanInt s with
    | none => none
    | some (n, s1) =>
      match runFmt ts s1 with
      | none => none
      | some (ns, s2) => some (n :: ns, s2)

/-- parse_event (`func parse_event`): parse one log line. The line's bytes
are modelled as characters. The bound check compares in ℤ because Go
evaluates `len(line) - 1` in `int`. -/
def parse_event (line : List Char) : Except String Event :=
  let split := splitIndex line
  if (split : Int) ≥ (line.length : Int) - 1 then
    Except.error "Opening delimiter not found!"
  else
    let log := line.drop split
    match runFmt fmtEvent log with
    | some ([a, b, c, d, e], _) =>
      Except.ok { Executor := a, Chain := b, Callback := c, Start_us := d, Duration_us := e }
    | _ => Except.error "Unable to match event format"

/-- IOErr: outcome class of a failed line read: end of file, or any other
read error. -/
inductive IOErr
  | eof
  | other (msg : String)
deriving DecidableEq

/-- ReadOutcome: what one `reader.ReadLine` call yields: a line together with
its continuation flag (true when the line exceeded the buffer), or an
error. -/
inductive ReadOutcome
  | line (bytes : List Char) (isPfx : Bool)
  | err (e : IOErr)
deriving DecidableEq

/-- ReadError: the error values `ReadEvents` builds, keeping the file name
and 1-based line number that the Go format strings interpolate. -/
inductive ReadError
  | tooLong (file : String) (lineNo : Nat)
  | parseFail (file : String) (lineNo : Nat) (msg : String)
  | exceptionWhenParsing
deriving DecidableEq

/-- readEventsLoop: the read loop of `ReadEvents` (lines 158–181): `n` is the
1-based line number and `events` the accumulator. Any read error breaks the
loop (the Go `break` on `nil != err`), after which the function returns the
events collected so far. -/
def readEventsLoop (fp : String) (n : Nat) (events : List Event) :
    List ReadOutcome → Except ReadError (List Event)
  | [] => Except.ok events
  | ReadOutcome.err _ :: _ => Except.ok events
  | ReadOutcome.line l isPfx :: rest =>
    if isPfx then Except.error (ReadError.tooLong fp n)
    else
      match parse_event l with
      | Except.error m => Except.error (ReadError.parseFail fp n m)
      | Except.ok ev => readEventsLoop fp (n + 1) (events ++ [ev]) rest

/-- ReadEvents (`func ReadEvents`), after a successful `os.Open`. The `err`
tested after the loop (line 184) is the function-scope variable last assigned
by `os.Open` — both assignments inside the loop use `:=` and shadow it — so
it is still `nil` there; that variable is modelled explicitly as
`errOuter`. -/
def ReadEvents (fp : String) (stream : List ReadOutcome) : Except ReadError (List Event) :=
  let errOuter : Option IOErr := none
  match readEventsLoop fp 1 [] stream with
  | Except.error e => Except.error e
  | Except.ok events =>
    if errOuter.isSome && errOuter != some IOErr.eof then
      Except.error ReadError.exceptionWhenParsing
    else Except.ok events

/-- parseAll: the events a list of lines parses to, when every line parses
(helper for stating properties of `ReadEvents`). -/
def parseAll : List (List Char) → Option (List Event)
  | [] => some []
  | l :: ls =>
    match parse_event l with
    | Except.ok e => (parseAll ls).map (fun es => e :: es)
    | Except.error _ => none

/-- rtAt: the response time computed at cycle-end index `i` (lines 223–225):
`(chain_events[i].Start_us + chain_events[i].Duration_us) -
chain_events[i - L + 1].Start_us`. The start index `i - len(path) + 1` is
written `i + 1 - path.length`: Go computes it in `int`, and on the branch
where it is used `i + 1 ≥ path.length`, so the two agree. -/
def rtAt (path : List Int) (evts : List Event) (i : Nat) : Int :=
  (evts.getD i default).Start_us + (evts.getD i default).Duration_us
    - (evts.getD (i + 1 - path.length) default).Start_us

/-- extractLoop: the per-chain event loop of `Analyze` (lines 207–230): walk
`chain_events` by index `i` (the Go `for i := 0; i < len(chain_events); i++`
is rendered as structural recursion over the index list), counting path
mismatches and appending one response time whenever a cycle of the path
completes. `none` models the Go runtime panic of `i % len(chain.Path)` on an
empty path. -/
def extractLoop (path : List Int) (evts : List Event) :
    List Nat → List Int → Nat → Option (List Int × Nat)
  | [], rts, mismatch => some (rts, mismatch)
  | i :: is, rts, mismatch =>
    if path.length = 0 then none
    else
      let expected := path.getD (i % path.length) 0
      let mismatch1 :=
        if expected ≠ (evts.getD i default).Callback then mismatch + 1 else mismatch
      let rts1 :=
        if (i + 1) % path.length = 0 ∧ i > 0 then rts ++ [rtAt path evts i]
        else rts
      extractLoop path evts is rts1 mismatch1

/-- extract: run the extraction loop over all indices of `chain_events`, with
empty accumulators. -/
def extract (path : List Int) (evts : List Event) : Option (List Int × Nat) :=
  extractLoop path evts (List.range evts.length) [] 0

/-- cycleEndP: the cycle-completion test of line 217,
`((i+1) % len(chain.Path)) == 0 && i > 0`. -/
def cycleEndP (L : Nat) (i : Nat) : Bool :=
  decide ((i + 1) % L = 0 ∧ i > 0)

/-- misP: the mismatch test of line 210, comparing the expected callback
`path[i % len(chain.Path)]` with the actual one. -/
def misP (path : List Int) (evts : List Event) (i : Nat) : Bool :=
  decide (path.getD (i % path.length) 0 ≠ (evts.getD i default).Callback)

/-- aggStep: one iteration of the statistics loop (lines 246–254): running
best case, worst case, and sum. -/
def aggStep (acc : Int × Int × Int) (x : Int) : Int × Int × Int :=
  (if x < acc.1 then x else acc.1,
   if x > acc.2.1 then x else acc.2.1,
   acc.2.2 + x)

/-- aggregate: BCRT/WCRT/ACRT of a non-empty response-time list, seeded with
its first element (line 245); `acrt /= len(response_times)` is Go integer
division, which truncates toward zero (`Int.tdiv`). -/
def aggregate (hd : Int) (tl : List Int) : Int × Int × Int :=
  let acc := tl.foldl aggStep (hd, hd, hd)
  (acc.1, acc.2.1, Int.tdiv acc.2.2 ((1 + tl.length : Nat) : Int))

/-- Diagnostic: the stderr messages `Analyze` prints, as structured
values. -/
inductive Diagnostic
  | analyzingChain (id : Int) (numEvents : Nat)
  | noResponseTimes (id : Int)
  | mismatches (count : Nat) (total : Nat)
deriving DecidableEq

/-- ChainReport: what one iteration of the chain loop of `Analyze` produces:
an optional Result (`none` when the chain is skipped by the `continue`) and
the diagnostics printed for it, in print order. -/
structure ChainReport where
  result : Option Result
  diags : List Diagnostic
deriving DecidableEq

/-- analyzeChain: one iteration of the chain loop of `Analyze` (lines
195–263): filter the chain's events, run the extraction loop, and either skip
the chain (empty response-time list — note the `continue` on line 235 comes
before the mismatch report on line 239) or report mismatches and aggregate.
`none` models the panic of the extraction loop. -/
def analyzeChain (c : Chain) (events : List Event) : Option ChainReport :=
  let chain_events := events.filter (fun e => e.Chain == c.ID)
  let d0 := Diagnostic.analyzingChain c.ID chain_events.length
  match extract c.Path chain_events with
  | none => none
  | some (response_times, mismatch_count) =>
    match response_times with
    | [] => some ⟨none, [d0, Diagnostic.noResponseTimes c.ID]⟩
    | hd :: tl =>
      let diags :=
        if mismatch_count > 0 then
          [d0, Diagnostic.mismatches mismatch_count chain_events.length]
        else [d0]
      let agg := aggregate hd tl
      some ⟨some { ID := c.ID, WCRT_us := agg.2.1, ACRT_us := agg.2.2, BCRT_us := agg.1 },
            diags⟩

/-- Analyze (`func Analyze`): fold over the chains in catalog order,
appending each produced Result; `none` models a panic aborting the whole
program. -/
def Analyze (chains : List Chain) (events : List Event) : Option (List Result) :=
  match chains with
  | [] => some []
  | c :: cs =>
    match analyzeChain c events with
    | none => none
    | some rep =>
      match Analyze cs events with
      | none => none
      | some rs => some (rep.result.toList ++ rs)

/-- buildChainsLoop: the construction loop of `WriteChains` (lines 93–107):
`id` ranges over the indices of `chains`; each per-field array is indexed at
`id`, and `none` models the Go index-out-of-range panic when one of them is
too short. -/
def buildChainsLoop (random_seed : Int) (ppe : Bool) (chain_avg_len : Int)
    (chain_merge_p chain_sync_p chain_variance : Rat)
    (periods priorities : List Int)
    (paths : List (List Int)) (us : List Rat) :
    List Nat → List Chain → Option (List Chain)
  | [], acc => some acc
  | id :: ids, acc =>
    match priorities.get? id, paths.get? id, periods.get? id, us.get? id with
    | some prio, some path, some per, some u =>
      buildChainsLoop random_seed ppe chain_avg_len chain_merge_p chain_sync_p
        chain_variance periods priorities paths us ids
        (acc ++ [{ ID := (id : Int), Prio := prio, Path := path, Period_us := per,
                   Utilisation := u, Random_seed := random_seed, PPE := ppe,
                   Avg_len := chain_avg_len, Merge_p := chain_merge_p,
                   Sync_p := chain_sync_p, Variance := chain_variance }])
    | _, _, _, _ => none

/-- WriteChains (`func WriteChains`): build the chain list from the parallel
per-field arrays (`for id, _ := range chains` reads only the index, so only
`chains.length` matters) and hand it to the JSON writer; the returned list is
what gets marshalled and written, `none` the panic. -/
def WriteChains (random_seed : Int) (ppe : Bool) (chain_avg_len : Int)
    (chain_merge_p chain_sync_p chain_variance : Rat)
    (chains periods priorities : List Int)
    (paths : List (List Int)) (us : List Rat) : Option (List Chain) :=
  buildChainsLoop random_seed ppe chain_avg_len chain_merge_p chain_sync_p
    chain_variance periods priorities paths us (List.range chains.length) []

/-- cEx: a concrete three-callback chain (the worked example of the
documentation), used for concrete instances. -/
def cEx : Chain :=
  { ID := 0, Prio := 0, Path := [1, 2, 3], Period_us := 0, Utilisation := 0,
    Random_seed := 0, PPE := false, Avg_len := 0, Merge_p := 0, Sync_p := 0,
    Variance := 0 }

/-- evEx: the worked-example event log for `cEx`: two perfect cycles. -/
def evEx : List Event :=
  [⟨0, 0, 1, 0, 10⟩, ⟨0, 0, 2, 10, 5⟩, ⟨0, 0, 3, 15, 20⟩,
   ⟨0, 0, 1, 40, 5⟩, ⟨0, 0, 2, 50, 5⟩, ⟨0, 0, 3, 60, 10⟩]

/-- cPair: a concrete two-callback chain, used for small concrete
instances. -/
def cPair : Chain :=
  { ID := 0, Prio := 0, Path := [1, 2], Period_us := 0, Utilisation := 0,
    Random_seed := 0, PPE := false, Avg_len := 0, Merge_p := 0, Sync_p := 0,
    Variance := 0 }

/-- cSolo: a concrete one-callback chain (`L = 1`), used for concrete
instances. -/
def cSolo : Chain :=
  { ID := 0, Prio := 0, Path := [7], Period_us := 0, Utilisation := 0,
    Random_seed := 0, PPE := false, Avg_len := 0, Merge_p := 0, Sync_p := 0,
    Variance := 0 }

/-- cEmpty: a concrete chain with an empty path (the degenerate
configuration), used for concrete instances. -/
def cEmpty : Chain :=
  { ID := 0, Prio := 0, Path := [], Period_us := 0, Utilisation := 0,
    Random_seed := 0, PPE := false, Avg_len := 0, Merge_p := 0, Sync_p := 0,
    Variance := 0 }

/-!
Helper lemmas. The central tool is a closed form for the extraction loop: on
a non-empty path it never panics, its response-time list collects `rtAt` at
the cycle-end indices, and its mismatch counter counts the indices whose
callback differs from the expected one.
-/

theorem extractLoop_closed (path : List Int) (evts : List Event) (hL : path.length ≠ 0) :
    ∀ (idx : List Nat) (rts : List Int) (m : Nat),
      extractLoop path evts idx rts m
        = some (rts ++ (idx.filter (cycleEndP path.length)).map (rtAt path evts),
                m + idx.countP (misP path evts)) := by
  intro idx
  induction idx with
  | nil =>
    intro rts m
    simp [extractLoop]
  | cons i is ih =>
    intro rts m
    have step : extractLoop path evts (i :: is) rts m
        = extractLoop path evts is
            (if (i + 1) % path.length = 0 ∧ i > 0 then rts ++ [rtAt path evts i] else rts)
            (if path.getD (i % path.length) 0 ≠ (evts.getD i default).Callback
             then m + 1 else m) := by
      simp only [extractLoop, if_neg hL]
    rw [step, ih, List.filter_cons, List.countP_cons]
    by_cases hc : (i + 1) % path.length = 0 ∧ i > 0 <;>
      by_cases hm : path.getD (i % path.length) 0 ≠ (evts.getD i default).Callback
    · have h1 : cycleEndP path.length i = true := by
        simp only [cycleEndP, decide_eq_true_eq]; exact hc
      have h2 : misP path evts i = true := by
        simp only [misP, decide_eq_true_eq]; exact hm
      rw [if_pos hc, if_pos hm, h1, h2]
      simp [List.append_assoc, Option.some.injEq, Prod.mk.injEq] <;> omega
    · have h1 : cycleEndP path.length i = true := by
        simp only [cycleEndP, decide_eq_true_eq]; exact hc
      have h2 : misP path evts i = false := by
        simp only [misP, decide_eq_false_iff_not]; exact hm
      rw [if_pos hc, if_neg hm, h1, h2]
      simp [List.append_assoc, Option.some.injEq, Prod.mk.injEq] <;> omega
    · have h1 : cycleEndP path.length i = false := by
        simp only [cycleEndP, decide_eq_false_iff_not]; exact hc
      have h2 : misP path evts i = true := by
        simp only [misP, decide_eq_true_eq]; exact hm
      rw [if_pos hm, if_neg hc, h1, h2]
      simp [Option.some.injEq, Prod.mk.injEq] <;> omega
    · have h1 : cycleEndP path.length i = false := by
        simp only [cycleEndP, decide_eq_false_iff_not]; exact hc
      have h2 : misP path evts i = false := by
        simp only [misP, decide_eq_false_iff_not]; exact hm
      rw [if_neg hc, if_neg hm, h1, h2]
      simp [Option.some.injEq, Prod.mk.injEq] <;> omega

theorem extract_eq (path : List Int) (evts : List Event) (hL : path.length ≠ 0) :
    extract path evts
      = some (((List.range evts.length).filter (cycleEndP path.length)).map (rtAt path evts),
              (List.range evts.length).countP (misP path evts)) := by
  unfold extract
  rw [extractLoop_closed path evts hL]
  simp

theorem cycleEnds_short (L n : Nat) (h : n < L) :
    (List.range n).filter (cycleEndP L) = [] := by
  rw [List.filter_eq_nil_iff]
  intro a ha
  rw [List.mem_range] at ha
  simp only [cycleEndP, decide_eq_true_eq, not_and]
  intro hmod
  have hlt : (a + 1) % L = a + 1 := Nat.mod_eq_of_lt (by omega)
  omega

theorem cycleEnds_mul (L : Nat) (hL : 2 ≤ L) (k : Nat) :
    (List.range (k * L)).filter (cycleEndP L)
      = (List.range k).map (fun j => j * L + L - 1) := by
  induction k with
  | zero => simp
  | succ k ih =>
    have hkl : (k + 1) * L = k * L + L := by ring
    rw [hkl, List.range_add, List.filter_append, ih, List.range_succ, List.map_append]
    congr 1
    rw [List.filter_map]
    have hfil : (List.range L).filter (cycleEndP L ∘ fun x => k * L + x) = [L - 1] := by
      obtain ⟨M, rfl⟩ : ∃ M, L = M + 2 := ⟨L - 2, by omega⟩
      rw [show M + 2 = (M + 1) + 1 from rfl, List.range_succ, List.filter_append,
        List.filter_cons]
      have h1 : (List.range (M + 1)).filter
          (cycleEndP (M + 1 + 1) ∘ fun x => k * (M + 1 + 1) + x) = [] := by
        rw [List.filter_eq_nil_iff]
        intro a ha
        rw [List.mem_range] at ha
        simp only [Function.comp_apply, cycleEndP, decide_eq_true_eq, not_and]
        intro hmod
        exfalso
        have h2 : k * (M + 1 + 1) + a + 1 = (a + 1) + k * (M + 1 + 1) := by ring
        rw [h2, Nat.add_mul_mod_self_right] at hmod
        have h3 : (a + 1) % (M + 1 + 1) = a + 1 := Nat.mod_eq_of_lt (by omega)
        omega
      have h4 : (cycleEndP (M + 1 + 1) ∘ fun x => k * (M + 1 + 1) + x) (M + 1) = true := by
        simp only [Function.comp_apply, cycleEndP, decide_eq_true_eq]
        constructor
        · have h5 : k * (M + 1 + 1) + (M + 1) + 1 = 0 + (k + 1) * (M + 1 + 1) := by ring
          rw [h5, Nat.add_mul_mod_self_right]
          simp
        · omega
      rw [h1, h4]
      simp
    rw [hfil]
    simp only [List.map_cons, List.map_nil]
    congr 1
    omega

theorem misCount_zero (path : List Int) (evts : List Event)
    (h : ∀ i, i < evts.length →
      (evts.getD i default).Callback = path.getD (i % path.length) 0) :
    (List.range evts.length).countP (misP path evts) = 0 := by
  rw [List.countP_eq_zero]
  intro a ha
  rw [List.mem_range] at ha
  simp only [misP, decide_eq_true_eq, not_not]
  exact (h a ha).symm

/-- Claim C1, counterexample: for a chain whose path has length `L = 1`, a
matching sub-sequence of exactly `k * L = 1` events in perfect path order
yields zero response times and no Result — not one of each as the claim
states — because the cycle-completion test of line 217 also requires
`i > 0`. -/
theorem C1_counterexample :
    extract cSolo.Path [⟨0, 0, 7, 0, 5⟩] = some ([], 0) ∧
    (analyzeChain cSolo [⟨0, 0, 7, 0, 5⟩]).map ChainReport.result = some none := by
  decide

/-- Claim C1 (amended): with `L = len(Path) ≥ 2`, a matching sub-sequence of
exactly `k * L` events whose callbacks follow the path in perfect cyclic
order yields exactly `k` response times, the `j`-th being
`(Start_us + Duration_us)` of the last event of cycle `j` minus `Start_us` of
the first event of cycle `j`; moreover a chain with fewer than `L` matching
events yields no Result and one with exactly `L` matching events yields
exactly one Result. (For `L = 1` the `i > 0` guard of line 217 suppresses
the first cycle, so the claim fails there; see the counterexample.) -/
theorem C1_amended (c : Chain) (hL : 2 ≤ c.Path.length) :
    (∀ (evts : List Event) (k : Nat),
       evts.length = k * c.Path.length →
       (∀ i, i < evts.length →
          (evts.getD i default).Callback = c.Path.getD (i % c.Path.length) 0) →
       ∃ rts m, extract c.Path evts = some (rts, m) ∧ rts.length = k ∧
         ∀ j, j < k →
           rts.getD j 0 =
             (evts.getD (j * c.Path.length + c.Path.length - 1) default).Start_us +
             (evts.getD (j * c.Path.length + c.Path.length - 1) default).Duration_us -
             (evts.getD (j * c.Path.length) default).Start_us) ∧
    (∀ es : List Event,
       ((es.filter (fun e => e.Chain == c.ID)).length < c.Path.length →
         (analyzeChain c es).map ChainReport.result = some none) ∧
       ((es.filter (fun e => e.Chain == c.ID)).length = c.Path.length →
         ∃ r, (analyzeChain c es).map ChainReport.result = some (some r))) := by
  have hL0 : c.Path.length ≠ 0 := by omega
  constructor
  · intro evts k hlen hperfect
    refine ⟨_, _, extract_eq c.Path evts hL0, ?_, ?_⟩
    · rw [hlen, cycleEnds_mul c.Path.length hL k]
      simp
    · intro j hj
      rw [hlen, cycleEnds_mul c.Path.length hL k, List.map_map]
      have hjlen : j < (((List.range k).map
          ((rtAt c.Path evts) ∘ fun j => j * c.Path.length + c.Path.length - 1))).length := by
        simp [hj]
      rw [List.getD_eq_getElem _ _ hjlen, List.getElem_map]
      simp only [List.getElem_range, Function.comp_apply, rtAt]
      have harith : j * c.Path.length + c.Path.length - 1 + 1 - c.Path.length
          = j * c.Path.length := by omega
      rw [harith]
  · intro es
    constructor
    · intro hshort
      have hext : extract c.Path (es.filter (fun e => e.Chain == c.ID))
          = some ([], (List.range (es.filter (fun e => e.Chain == c.ID)).length).countP
                       (misP c.Path (es.filter (fun e => e.Chain == c.ID)))) := by
        rw [extract_eq _ _ hL0, cycleEnds_short _ _ hshort]
        simp
      simp [analyzeChain, hext]
    · intro heq
      have hone : (es.filter (fun e => e.Chain == c.ID)).length = 1 * c.Path.length := by
        omega
      have hext : extract c.Path (es.filter (fun e => e.Chain == c.ID))
          = some ([rtAt c.Path (es.filter (fun e => e.Chain == c.ID)) (c.Path.length - 1)],
                  (List.range (es.filter (fun e => e.Chain == c.ID)).length).countP
                    (misP c.Path (es.filter (fun e => e.Chain == c.ID)))) := by
        rw [extract_eq _ _ hL0, hone, cycleEnds_mul c.Path.length hL 1]
        have h01 : List.range 1 = [0] := rfl
        rw [h01]
        simp
      simp [analyzeChain, hext]

/-- Claim C1, witness: the amended theorem applied to the worked example:
chain `cEx` with path `[1,2,3]` and six perfect events yields exactly two
response times with the claimed values. -/
theorem C1_witness :
    ∃ rts m, extract cEx.Path evEx = some (rts, m) ∧ rts.length = 2 ∧
      ∀ j, j < 2 →
        rts.getD j 0 =
          (evEx.getD (j * cEx.Path.length + cEx.Path.length - 1) default).Start_us +
          (evEx.getD (j * cEx.Path.length + cEx.Path.length - 1) default).Duration_us -
          (evEx.getD (j * cEx.Path.length) default).Start_us :=
  (C1_amended cEx (by decide)).1 evEx 2 (by decide) (by decide)

/-- Claim C2, code bug: the code has no empty-path check; for a chain whose
`Path` is empty and one matching event, `i % len(chain.Path)` (line 209) is
reached with a zero divisor and the program panics (modelled as `none`),
while with zero matching events the loop body never runs and the degenerate
chain is silently skipped — no configuration error is raised in either
case. -/
theorem C2_bug :
    Analyze [cEmpty] [⟨0, 0, 7, 0, 5⟩] = none ∧ Analyze [cEmpty] [] = some [] := by
  decide

theorem readEventsLoop_append (fp : String) :
    ∀ (pre : List (List Char)) (evs : List Event) (evs0 : List Event) (n : Nat)
      (rest : List ReadOutcome),
      parseAll pre = some evs →
      readEventsLoop fp n evs0 (pre.map (fun l => ReadOutcome.line l false) ++ rest)
        = readEventsLoop fp (n + pre.length) (evs0 ++ evs) rest := by
  intro pre
  induction pre with
  | nil =>
    intro evs evs0 n rest h
    simp only [parseAll, Option.some.injEq] at h
    subst h
    simp
  | cons l ls ih =>
    intro evs evs0 n rest h
    simp only [parseAll] at h
    cases hpe : parse_event l with
    | error m =>
      rw [hpe] at h
      simp at h
    | ok ev =>
      rw [hpe] at h
      rcases Option.map_eq_some'.mp h with ⟨tl, htl, hevs⟩
      subst hevs
      simp only [List.map_cons, List.cons_append, List.length_cons]
      have hstep : readEventsLoop fp n evs0
          (ReadOutcome.line l false :: (ls.map (fun x => ReadOutcome.line x false) ++ rest))
          = readEventsLoop fp (n + 1) (evs0 ++ [ev])
              (ls.map (fun x => ReadOutcome.line x false) ++ rest) := by
        simp [readEventsLoop, hpe]
      rw [hstep, ih tl (evs0 ++ [ev]) (n + 1) rest htl,
        show n + 1 + ls.length = n + (ls.length + 1) by omega,
        show (evs0 ++ [ev]) ++ tl = evs0 ++ ev :: tl by simp]

/-- Claim C3 (confirmed): event-log parsing is fail-fast: after any prefix of
well-formed lines, the first line that cannot be parsed — one whose scan
fails, or one exceeding the buffer — aborts the whole operation with an
error carrying the file name and the 1-based line number, and no events are
returned with it (the Go function returns `([]Event{}, error)`). -/
theorem C3_fail_fast (fp : String) (pre : List (List Char)) (evs : List Event)
    (hpre : parseAll pre = some evs) :
    (∀ (l : List Char) (rest : List ReadOutcome) (msg : String),
       parse_event l = Except.error msg →
       ReadEvents fp (pre.map (fun x => ReadOutcome.line x false)
           ++ ReadOutcome.line l false :: rest)
         = Except.error (ReadError.parseFail fp (pre.length + 1) msg)) ∧
    (∀ (l : List Char) (rest : List ReadOutcome),
       ReadEvents fp (pre.map (fun x => ReadOutcome.line x false)
           ++ ReadOutcome.line l true :: rest)
         = Except.error (ReadError.tooLong fp (pre.length + 1))) := by
  constructor
  · intro l rest msg hl
    simp only [ReadEvents]
    rw [readEventsLoop_append fp pre evs [] 1 _ hpre]
    simp [readEventsLoop, hl, show 1 + pre.length = pre.length + 1 by omega]
  · intro l rest
    simp only [ReadEvents]
    rw [readEventsLoop_append fp pre evs [] 1 _ hpre]
    simp [readEventsLoop, show 1 + pre.length = pre.length + 1 by omega]

/-- Claim C3, witness: one well-formed line followed by a line missing its
`duration` field aborts the parse with a line-2 error and no events. -/
theorem C3_witness :
    ReadEvents "log.txt"
        [ReadOutcome.line
           ("\x7bexecutor: 1, chain: 0, callback: 2, start: 3, duration: 4\x7d".toList) false,
         ReadOutcome.line
           ("\x7bexecutor: 1, chain: 0, callback: 2, start: 3\x7d".toList) false]
      = Except.error (ReadError.parseFail "log.txt" 2 "Unable to match event format") :=
  (C3_fail_fast "log.txt"
      ["\x7bexecutor: 1, chain: 0, callback: 2, start: 3, duration: 4\x7d".toList]
      [⟨1, 0, 2, 3, 4⟩] (by decide)).1
    ("\x7bexecutor: 1, chain: 0, callback: 2, start: 3\x7d".toList) [] _ rfl

theorem readEventsLoop_no_exception (fp : String) :
    ∀ (stream : List ReadOutcome) (n : Nat) (evs0 : List Event),
      readEventsLoop fp n evs0 stream ≠ Except.error ReadError.exceptionWhenParsing := by
  intro stream
  induction stream with
  | nil =>
    intro n evs0
    simp [readEventsLoop]
  | cons o rest ih =>
    intro n evs0
    cases o with
    | err e => simp [readEventsLoop]
    | line l isPfx =>
      cases isPfx with
      | true => simp [readEventsLoop]
      | false =>
        cases hpe : parse_event l with
        | error m => simp [readEventsLoop, hpe]
        | ok ev =>
          simp only [readEventsLoop, Bool.false_eq_true, if_false, hpe]
          exact ih (n + 1) (evs0 ++ [ev])

/-- Claim C9 (confirmed): the `err` tested after the read loop is the
function-scope variable last set by `os.Open` (nil there), because both
assignments inside the loop shadow it; hence the non-EOF "Exception when
parsing" branch is unreachable, and a mid-stream read error that is not
`io.EOF` makes `ReadEvents` return the events parsed so far together with a
nil error. -/
theorem C9_shadowed_err (fp : String) (pre : List (List Char)) (evs : List Event)
    (hpre : parseAll pre = some evs) :
    (∀ (s : String) (rest : List ReadOutcome),
       ReadEvents fp (pre.map (fun x => ReadOutcome.line x false)
           ++ ReadOutcome.err (IOErr.other s) :: rest)
         = Except.ok evs) ∧
    (∀ stream : List ReadOutcome,
       ReadEvents fp stream ≠ Except.error ReadError.exceptionWhenParsing) := by
  constructor
  · intro s rest
    simp only [ReadEvents]
    rw [readEventsLoop_append fp pre evs [] 1 _ hpre]
    simp [readEventsLoop]
  · intro stream
    simp only [ReadEvents]
    cases hl : readEventsLoop fp 1 [] stream with
    | error e =>
      intro hcon
      simp only [hl] at hcon
      injection hcon with he
      rw [he] at hl
      exact readEventsLoop_no_exception fp stream 1 [] hl
    | ok evs2 => simp

/-- Claim C9, witness: a well-formed line followed by a non-EOF read error
(and further unread data) returns the one parsed event with success. -/
theorem C9_witness :
    ReadEvents "log.txt"
        [ReadOutcome.line
           ("\x7bexecutor: 1, chain: 0, callback: 2, start: 3, duration: 4\x7d".toList) false,
         ReadOutcome.err (IOErr.other "device error"),
         ReadOutcome.line ("junk".toList) false]
      = Except.ok [⟨1, 0, 2, 3, 4⟩] :=
  (C9_shadowed_err "log.txt"
      ["\x7bexecutor: 1, chain: 0, callback: 2, start: 3, duration: 4\x7d".toList]
      [⟨1, 0, 2, 3, 4⟩] (by decide)).1 "device error"
    [ReadOutcome.line ("junk".toList) false]

/-- Claim C4, code bug: `WriteChains` performs no length check on its
parallel arrays: with one chain and an empty `priorities` array the loop
indexes `priorities[0]` out of range and the program panics (modelled as
`none`) instead of failing fast with an error; and with over-long arrays it
silently builds and writes from the first entries instead of reporting the
mismatch. -/
theorem C4_bug :
    WriteChains 3 false 4 0 0 0 [5] [7] [] [[1]] [1] = none ∧
    (WriteChains 3 false 4 0 0 0 [5] [7, 8] [9, 10] [[1], [2]] [1, 2]).isSome = true := by
  decide

theorem buildChainsLoop_shape (random_seed : Int) (ppe : Bool) (avg : Int)
    (mp sp va : Rat) (periods priorities : List Int) (paths : List (List Int))
    (us : List Rat) :
    ∀ (ids : List Nat) (acc : List Chain) (cs : List Chain),
      buildChainsLoop random_seed ppe avg mp sp va periods priorities paths us ids acc
        = some cs →
      ∃ rest : List Chain, cs = acc ++ rest ∧ rest.length = ids.length ∧
        ∀ t, t < ids.length → (rest.getD t default).ID = ((ids.getD t 0 : Nat) : Int) := by
  intro ids
  induction ids with
  | nil =>
    intro acc cs h
    simp only [buildChainsLoop, Option.some.injEq] at h
    subst h
    exact ⟨[], by simp, by simp, by simp⟩
  | cons id ids ih =>
    intro acc cs h
    simp only [buildChainsLoop] at h
    rcases h1 : priorities.get? id with _ | prio <;> rw [h1] at h <;>
      rcases h2 : paths.get? id with _ | path <;> rw [h2] at h <;>
      rcases h3 : periods.get? id with _ | per <;> rw [h3] at h <;>
      rcases h4 : us.get? id with _ | u <;> rw [h4] at h <;>
      simp only [] at h <;> try exact absurd h (by simp)
    obtain ⟨rest, hcs, hlen, hids⟩ := ih _ cs h
    refine ⟨{ ID := (id : Int), Prio := prio, Path := path, Period_us := per,
              Utilisation := u, Random_seed := random_seed, PPE := ppe,
              Avg_len := avg, Merge_p := mp, Sync_p := sp, Variance := va } :: rest,
            ?_, by simp [hlen], ?_⟩
    · rw [hcs]
      simp
    · intro t ht
      cases t with
      | zero => simp
      | succ t2 =>
        simp only [List.getD_cons_succ]
        rw [List.length_cons] at ht
        exact hids t2 (by omega)

/-- Claim C10 (confirmed): each Chain built and written by `WriteChains` gets
`ID` equal to its index in the `chains` input slice, and the element values
of `chains` are never read: any two `chains` arrays of equal length give the
same output. -/
theorem C10_index_ids (random_seed : Int) (ppe : Bool) (avg : Int) (mp sp va : Rat)
    (chains chains2 periods priorities : List Int) (paths : List (List Int))
    (us : List Rat) (cs : List Chain)
    (h : WriteChains random_seed ppe avg mp sp va chains periods priorities paths us
      = some cs) :
    (cs.length = chains.length ∧
     ∀ i, i < cs.length → (cs.getD i default).ID = (i : Int)) ∧
    (chains2.length = chains.length →
      WriteChains random_seed ppe avg mp sp va chains2 periods priorities paths us
        = WriteChains random_seed ppe avg mp sp va chains periods priorities paths us) := by
  constructor
  · obtain ⟨rest, hcs, hlen, hids⟩ :=
      buildChainsLoop_shape random_seed ppe avg mp sp va periods priorities paths us
        (List.range chains.length) [] cs h
    have hcs2 : cs = rest := by simpa using hcs
    refine ⟨?_, ?_⟩
    · rw [hcs2, hlen, List.length_range]
    · intro i hi
      have hi3 : i < chains.length := by
        rw [hcs2, hlen, List.length_range] at hi
        exact hi
      have hier := hids i (by rw [List.length_range]; exact hi3)
      have hr : (List.range chains.length).getD i 0 = i := by
        rw [List.getD_eq_getElem _ _ (by rw [List.length_range]; exact hi3),
          List.getElem_range]
      rw [hr] at hier
      rw [hcs2]
      exact hier
  · intro hlen2
    unfold WriteChains
    rw [hlen2]

/-- Claim C10, witness: the theorem applied to a concrete two-chain build:
both IDs equal their index, and replacing the `chains` values leaves the
output unchanged. -/
theorem C10_witness :
    ((WriteChains 3 false 4 0 0 0 [55, 66] [7, 8] [9, 10] [[1], [2]] [1, 2]).getD []).length = 2 ∧
    (((WriteChains 3 false 4 0 0 0 [55, 66] [7, 8] [9, 10] [[1], [2]] [1, 2]).getD []).getD 1
        default).ID = 1 ∧
    WriteChains 3 false 4 0 0 0 [0, 0] [7, 8] [9, 10] [[1], [2]] [1, 2]
      = WriteChains 3 false 4 0 0 0 [55, 66] [7, 8] [9, 10] [[1], [2]] [1, 2] := by
  have h := C10_index_ids 3 false 4 0 0 0 [55, 66] [0, 0] [7, 8] [9, 10] [[1], [2]] [1, 2]
    ((WriteChains 3 false 4 0 0 0 [55, 66] [7, 8] [9, 10] [[1], [2]] [1, 2]).getD []) (by decide)
  refine ⟨?_, ?_, ?_⟩
  · exact h.1.1
  · exact h.1.2 1 (by rw [h.1.1]; decide)
  · exact h.2 (by decide)

theorem aggStep_foldl (l : List Int) :
    ∀ b w s : Int,
      ((l.foldl aggStep (b, w, s)).1 = b ∨ (l.foldl aggStep (b, w, s)).1 ∈ l) ∧
      (l.foldl aggStep (b, w, s)).1 ≤ b ∧
      (∀ x ∈ l, (l.foldl aggStep (b, w, s)).1 ≤ x) ∧
      ((l.foldl aggStep (b, w, s)).2.1 = w ∨ (l.foldl aggStep (b, w, s)).2.1 ∈ l) ∧
      w ≤ (l.foldl aggStep (b, w, s)).2.1 ∧
      (∀ x ∈ l, x ≤ (l.foldl aggStep (b, w, s)).2.1) ∧
      (l.foldl aggStep (b, w, s)).2.2 = s + l.sum := by
  induction l with
  | nil =>
    intro b w s
    simp
  | cons x xs ih =>
    intro b w s
    simp only [List.foldl_cons, aggStep]
    obtain ⟨h1, h2, h3, h4, h5, h6, h7⟩ :=
      ih (if x < b then x else b) (if x > w then x else w) (s + x)
    have hminb : (if x < b then x else b) ≤ b := by
      by_cases hx : x < b
      · rw [if_pos hx]; omega
      · rw [if_neg hx]
    have hminx : (if x < b then x else b) ≤ x := by
      by_cases hx : x < b
      · rw [if_pos hx]
      · rw [if_neg hx]; omega
    have hmaxw : w ≤ (if x > w then x else w) := by
      by_cases hx : x > w
      · rw [if_pos hx]; omega
      · rw [if_neg hx]
    have hmaxx : x ≤ (if x > w then x else w) := by
      by_cases hx : x > w
      · rw [if_pos hx]
      · rw [if_neg hx]; omega
    refine ⟨?_, ?_, ?_, ?_, ?_, ?_, ?_⟩
    · rcases h1 with h | h
      · rw [h]
        by_cases hx : x < b
        · right
          rw [if_pos hx]
          exact List.mem_cons_self x xs
        · left
          rw [if_neg hx]
      · right
        exact List.mem_cons_of_mem x h
    · exact le_trans h2 hminb
    · intro y hy
      rcases List.mem_cons.mp hy with rfl | hy
      · exact le_trans h2 hminx
      · exact h3 y hy
    · rcases h4 with h | h
      · rw [h]
        by_cases hx : x > w
        · right
          rw [if_pos hx]
          exact List.mem_cons_self x xs
        · left
          rw [if_neg hx]
      · right
        exact List.mem_cons_of_mem x h
    · exact le_trans hmaxw h5
    · intro y hy
      rcases List.mem_cons.mp hy with rfl | hy
      · exact le_trans hmaxx h5
      · exact h6 y hy
    · rw [h7, List.sum_cons]
      ring

theorem aggregate_spec (hd : Int) (tl : List Int) :
    ((aggregate hd tl).1 ∈ hd :: tl ∧ ∀ x ∈ hd :: tl, (aggregate hd tl).1 ≤ x) ∧
    ((aggregate hd tl).2.1 ∈ hd :: tl ∧ ∀ x ∈ hd :: tl, x ≤ (aggregate hd tl).2.1) ∧
    (aggregate hd tl).2.2 = Int.tdiv (hd :: tl).sum (((hd :: tl).length : Nat) : Int) := by
  obtain ⟨h1, h2, h3, h4, h5, h6, h7⟩ := aggStep_foldl tl hd hd hd
  simp only [aggregate]
  refine ⟨⟨?_, ?_⟩, ⟨?_, ?_⟩, ?_⟩
  · rcases h1 with h | h
    · rw [h]; exact List.mem_cons_self hd tl
    · exact List.mem_cons_of_mem hd h
  · intro y hy
    rcases List.mem_cons.mp hy with rfl | hy
    · exact h2
    · exact h3 y hy
  · rcases h4 with h | h
    · rw [h]; exact List.mem_cons_self hd tl
    · exact List.mem_cons_of_mem hd h
  · intro y hy
    rcases List.mem_cons.mp hy with rfl | hy
    · exact h5
    · exact h6 y hy
  · rw [h7, List.sum_cons, List.length_cons,
      show (1 + tl.length : Nat) = tl.length + 1 by omega]

theorem sum_ge_mul_length (l : List Int) (b : Int) (hb : ∀ x ∈ l, b ≤ x) :
    b * l.length ≤ l.sum := by
  induction l with
  | nil => simp
  | cons x xs ih =>
    simp only [List.sum_cons, List.length_cons]
    have h1 := hb x (List.mem_cons_self x xs)
    have h2 := ih (fun y hy => hb y (List.mem_cons_of_mem _ hy))
    push_cast
    nlinarith [h1, h2]

theorem sum_le_mul_length (l : List Int) (w : Int) (hw : ∀ x ∈ l, x ≤ w) :
    l.sum ≤ w * l.length := by
  induction l with
  | nil => simp
  | cons x xs ih =>
    simp only [List.sum_cons, List.length_cons]
    have h1 := hw x (List.mem_cons_self x xs)
    have h2 := ih (fun y hy => hw y (List.mem_cons_of_mem _ hy))
    push_cast
    nlinarith [h1, h2]

theorem tdiv_between (b w s : Int) (n : Nat) (hn : 0 < n)
    (h1 : b * n ≤ s) (h2 : s ≤ w * n) :
    b ≤ Int.tdiv s n ∧ Int.tdiv s n ≤ w := by
  have hnI : (0 : Int) < n := by exact_mod_cast hn
  rcases le_or_lt 0 s with hs | hs
  · rw [Int.tdiv_eq_ediv hs (le_of_lt hnI)]
    constructor
    · have h3 : b * n / n ≤ s / n := Int.ediv_le_ediv hnI h1
      rwa [Int.mul_ediv_cancel b (ne_of_gt hnI)] at h3
    · have h3 : s / n ≤ w * n / n := Int.ediv_le_ediv hnI h2
      rwa [Int.mul_ediv_cancel w (ne_of_gt hnI)] at h3
  · have hrw : Int.tdiv s n = -(Int.tdiv (-s) n) := by
      rw [show s = -(-s) by ring, Int.neg_tdiv]
      simp
    rw [hrw, Int.tdiv_eq_ediv (by omega) (le_of_lt hnI)]
    constructor
    · have hle : (-s) ≤ (-b) * n := by linarith
      have h3 : (-s) / n ≤ (-b) * n / n := Int.ediv_le_ediv hnI hle
      rw [Int.mul_ediv_cancel _ (ne_of_gt hnI)] at h3
      omega
    · have hge : (-w) * n ≤ (-s) := by linarith
      have h3 : (-w) * n / n ≤ (-s) / n := Int.ediv_le_ediv hnI hge
      rw [Int.mul_ediv_cancel _ (ne_of_gt hnI)] at h3
      omega

theorem aggregate_between (hd : Int) (tl : List Int) :
    (aggregate hd tl).1 ≤ (aggregate hd tl).2.2 ∧
    (aggregate hd tl).2.2 ≤ (aggregate hd tl).2.1 := by
  obtain ⟨⟨hbm, hbl⟩, ⟨hwm, hwu⟩, hsum⟩ := aggregate_spec hd tl
  have hn : 0 < (hd :: tl).length := by simp
  have hble := sum_ge_mul_length (hd :: tl) (aggregate hd tl).1 hbl
  have hwge := sum_le_mul_length (hd :: tl) (aggregate hd tl).2.1 hwu
  have h := tdiv_between (aggregate hd tl).1 (aggregate hd tl).2.1 (hd :: tl).sum
    (hd :: tl).length hn hble hwge
  rw [hsum]
  exact h

/-- Claim C5 (confirmed): for a non-empty list of non-negative response times
the aggregation yields `BCRT_us` = the minimum of the list, `WCRT_us` = the
maximum, and `ACRT_us = floor(sum / count)` (the Go truncating division
coincides with the floor on non-negative sums); and for a chain whose
extraction produced an empty list the `continue` yields no Result. -/
theorem C5_aggregate (hd : Int) (tl : List Int) (hnn : ∀ x ∈ hd :: tl, 0 ≤ x) :
    ((aggregate hd tl).1 ∈ hd :: tl ∧ ∀ x ∈ hd :: tl, (aggregate hd tl).1 ≤ x) ∧
    ((aggregate hd tl).2.1 ∈ hd :: tl ∧ ∀ x ∈ hd :: tl, x ≤ (aggregate hd tl).2.1) ∧
    ((aggregate hd tl).2.2
      = Int.fdiv (hd :: tl).sum (((hd :: tl).length : Nat) : Int)) ∧
    (∀ (c : Chain) (es : List Event) (rep : ChainReport) (m : Nat),
       analyzeChain c es = some rep →
       extract c.Path (es.filter (fun e => e.Chain == c.ID)) = some ([], m) →
       rep.result = none) := by
  obtain ⟨hmin, hmax, hsum⟩ := aggregate_spec hd tl
  refine ⟨hmin, hmax, ?_, ?_⟩
  · rw [hsum]
    have hs : (0 : Int) ≤ (hd :: tl).sum := List.sum_nonneg hnn
    have hn : (0 : Int) ≤ ((hd :: tl).length : Int) := by positivity
    rw [Int.tdiv_eq_ediv hs hn, Int.fdiv_eq_ediv _ hn]
  · intro c es rep m h1 h2
    simp only [analyzeChain, h2, Option.some.injEq] at h1
    rw [← h1]

/-- Claim C5, witness: the theorem applied to the worked example's response
times `[35, 30]`: the average is `floor(65 / 2) = 32`. -/
theorem C5_witness :
    (aggregate 35 [30]).2.2
      = Int.fdiv ([35, 30] : List Int).sum ((([35, 30] : List Int).length : Nat) : Int) :=
  (C5_aggregate 35 [30] (by decide)).2.2.1

theorem analyzeChain_result_between (c : Chain) (events : List Event) (rep : ChainReport)
    (h : analyzeChain c events = some rep) :
    ∀ r ∈ rep.result.toList, r.BCRT_us ≤ r.ACRT_us ∧ r.ACRT_us ≤ r.WCRT_us := by
  intro r hr
  simp only [analyzeChain] at h
  cases hx : extract c.Path (events.filter (fun e => e.Chain == c.ID)) with
  | none =>
    rw [hx] at h
    simp at h
  | some pr =>
    rw [hx] at h
    obtain ⟨rts, m⟩ := pr
    cases rts with
    | nil =>
      simp only [Option.some.injEq] at h
      rw [← h] at hr
      simp at hr
    | cons hd tl =>
      simp only [Option.some.injEq] at h
      rw [← h] at hr
      simp only [Option.toList_some, List.mem_singleton] at hr
      subst hr
      exact ⟨(aggregate_between hd tl).1, (aggregate_between hd tl).2⟩

/-- Claim C6 (confirmed): every Result emitted by `Analyze` satisfies
`BCRT_us ≤ ACRT_us ≤ WCRT_us`. -/
theorem C6_order (chains : List Chain) (events : List Event) (rs : List Result)
    (h : Analyze chains events = some rs) :
    ∀ r ∈ rs, r.BCRT_us ≤ r.ACRT_us ∧ r.ACRT_us ≤ r.WCRT_us := by
  induction chains generalizing rs with
  | nil =>
    simp only [Analyze, Option.some.injEq] at h
    subst h
    simp
  | cons c cs ih =>
    simp only [Analyze] at h
    cases h1 : analyzeChain c events with
    | none =>
      rw [h1] at h
      simp at h
    | some rep =>
      rw [h1] at h
      cases h2 : Analyze cs events with
      | none =>
        rw [h2] at h
        simp at h
      | some rs2 =>
        rw [h2] at h
        simp only [Option.some.injEq] at h
        subst h
        intro r hr
        rcases List.mem_append.mp hr with hr | hr
        · exact analyzeChain_result_between c events rep h1 r hr
        · exact ih rs2 h2 r hr

/-- Claim C6, witness: the theorem applied to the worked example, whose
single Result is `(ID 0, WCRT 35, ACRT 32, BCRT 30)`. -/
theorem C6_witness :
    ({ ID := 0, WCRT_us := 35, ACRT_us := 32, BCRT_us := 30 } : Result).BCRT_us
        ≤ ({ ID := 0, WCRT_us := 35, ACRT_us := 32, BCRT_us := 30 } : Result).ACRT_us ∧
    ({ ID := 0, WCRT_us := 35, ACRT_us := 32, BCRT_us := 30 } : Result).ACRT_us
        ≤ ({ ID := 0, WCRT_us := 35, ACRT_us := 32, BCRT_us := 30 } : Result).WCRT_us :=
  C6_order [cEx] evEx [{ ID := 0, WCRT_us := 35, ACRT_us := 32, BCRT_us := 30 }]
    (by decide) _ (List.mem_singleton.mpr rfl)

theorem set_getD_eq (f : List Event) (j : Nat) (e2 : Event) (hj : j < f.length) (t : Nat) :
    (f.set j e2).getD t default = if j = t then e2 else f.getD t default := by
  rw [List.getD_eq_getElem?_getD, List.getElem?_set]
  by_cases h1 : j = t
  · subst h1
    simp [hj]
  · rw [if_neg h1, if_neg h1, List.getD_eq_getElem?_getD]

theorem rtAt_set_callback (path : List Int) (f : List Event) (j : Nat) (v : Int)
    (hj : j < f.length) (i : Nat) :
    rtAt path (f.set j { f.getD j default with Callback := v }) i = rtAt path f i := by
  have hS : ({ f.getD j default with Callback := v } : Event).Start_us
      = (f.getD j default).Start_us := rfl
  have hD : ({ f.getD j default with Callback := v } : Event).Duration_us
      = (f.getD j default).Duration_us := rfl
  unfold rtAt
  rw [set_getD_eq f j _ hj i, set_getD_eq f j _ hj (i + 1 - path.length)]
  by_cases h1 : j = i
  · subst h1
    by_cases h2 : j = j + 1 - path.length
    · rw [if_pos rfl, if_pos h2, hS, hD, ← h2]
    · rw [if_pos rfl, if_neg h2, hS, hD]
  · by_cases h2 : j = i + 1 - path.length
    · rw [if_neg h1, if_pos h2, hS, h2]
    · rw [if_neg h1, if_neg h2]

theorem countP_range_flip (p q : Nat → Bool) (j : Nat)
    (hsame : ∀ t, t ≠ j → p t = q t) (hpj : p j = false) (hqj : q j = true) :
    ∀ n, j < n → (List.range n).countP q = (List.range n).countP p + 1 := by
  intro n
  induction n with
  | zero =>
    intro h
    omega
  | succ n2 ih =>
    intro hj
    rw [List.range_succ, List.countP_append, List.countP_append]
    by_cases hjn : j < n2
    · rw [ih hjn]
      have hlast : List.countP q [n2] = List.countP p [n2] := by
        simp only [List.countP_cons, List.countP_nil]
        rw [hsame n2 (by omega)]
      omega
    · have hjeq : j = n2 := by omega
      subst hjeq
      have hpre : (List.range j).countP q = (List.range j).countP p := by
        apply List.countP_congr
        intro a ha
        rw [List.mem_range] at ha
        rw [hsame a (by omega)]
      rw [hpre]
      simp only [List.countP_cons, List.countP_nil, hpj, hqj]
      simp

theorem extract_set_callback (path : List Int) (f : List Event) (j : Nat) (v : Int)
    (hL0 : path.length ≠ 0) (hj : j < f.length)
    (hmatch : (f.getD j default).Callback = path.getD (j % path.length) 0)
    (hv : v ≠ path.getD (j % path.length) 0) :
    ∃ rts m, extract path f = some (rts, m) ∧
      extract path (f.set j { f.getD j default with Callback := v })
        = some (rts, m + 1) := by
  refine ⟨_, _, extract_eq path f hL0, ?_⟩
  rw [extract_eq path _ hL0, List.length_set]
  have hrts : ((List.range f.length).filter (cycleEndP path.length)).map
      (rtAt path (f.set j { f.getD j default with Callback := v }))
      = ((List.range f.length).filter (cycleEndP path.length)).map (rtAt path f) := by
    apply List.map_congr_left
    intro a _
    exact rtAt_set_callback path f j v hj a
  have hcnt : (List.range f.length).countP
      (misP path (f.set j { f.getD j default with Callback := v }))
      = (List.range f.length).countP (misP path f) + 1 := by
    apply countP_range_flip (misP path f)
      (misP path (f.set j { f.getD j default with Callback := v })) j ?_ ?_ ?_ f.length hj
    · intro t ht
      simp only [misP]
      rw [set_getD_eq f j _ hj t, if_neg (by omega : ¬ j = t)]
    · simp only [misP, decide_eq_false_iff_not, not_not]
      exact hmatch.symm
    · simp only [misP, decide_eq_true_eq]
      rw [set_getD_eq f j _ hj j, if_pos rfl]
      exact fun h => hv h.symm
  rw [hrts, hcnt]

theorem analyzeChain_result_congr (c : Chain) (es es2 : List Event)
    (rts : List Int) (m m2 : Nat)
    (h1 : extract c.Path (es.filter (fun e => e.Chain == c.ID)) = some (rts, m))
    (h2 : extract c.Path (es2.filter (fun e => e.Chain == c.ID)) = some (rts, m2)) :
    (analyzeChain c es2).map ChainReport.result
      = (analyzeChain c es).map ChainReport.result := by
  simp only [analyzeChain, h1, h2]
  cases rts with
  | nil => simp
  | cons hd tl => simp

theorem filter_set_callback (cid : Int) :
    ∀ (es : List Event) (k : Nat) (e2 : Event),
      k < es.length →
      (es.getD k default).Chain = cid →
      e2.Chain = cid →
      ((es.set k e2).filter (fun e => e.Chain == cid)
        = (es.filter (fun e => e.Chain == cid)).set
            ((es.take k).filter (fun e => e.Chain == cid)).length e2) ∧
      ((es.filter (fun e => e.Chain == cid)).getD
          ((es.take k).filter (fun e => e.Chain == cid)).length default
        = es.getD k default) ∧
      (((es.take k).filter (fun e => e.Chain == cid)).length
        < (es.filter (fun e => e.Chain == cid)).length) := by
  intro es
  induction es with
  | nil =>
    intro k e2 hk
    simp at hk
  | cons a tl ih =>
    intro k e2 hk hchain he2
    have hpe : (e2.Chain == cid) = true := by
      simp [he2]
    cases k with
    | zero =>
      have hpa : (a.Chain == cid) = true := by
        simp only [List.getD_cons_zero] at hchain
        simp [hchain]
      refine ⟨?_, ?_, ?_⟩
      · simp [List.filter_cons, hpa, hpe]
      · simp [List.filter_cons, hpa]
      · simp [List.filter_cons, hpa]
    | succ k2 =>
      rw [List.length_cons] at hk
      rw [List.getD_cons_succ] at hchain
      obtain ⟨ih1, ih2, ih3⟩ := ih k2 e2 (by omega) hchain he2
      by_cases hpa : (a.Chain == cid) = true
      · refine ⟨?_, ?_, ?_⟩
        · simp only [List.set_cons_succ, List.filter_cons, hpa, if_true,
            List.take_succ_cons, ih1]
          rfl
        · simp only [List.filter_cons, hpa, if_true, List.take_succ_cons,
            List.length_cons, List.getD_cons_succ]
          exact ih2
        · simp only [List.filter_cons, hpa, if_true, List.take_succ_cons,
            List.length_cons]
          omega
      · rw [Bool.not_eq_true] at hpa
        refine ⟨?_, ?_, ?_⟩
        · simp only [List.set_cons_succ, List.filter_cons, hpa, Bool.false_eq_true,
            if_false, List.take_succ_cons]
          exact ih1
        · simp only [List.filter_cons, hpa, Bool.false_eq_true, if_false,
            List.take_succ_cons]
          exact ih2
        · simp only [List.filter_cons, hpa, Bool.false_eq_true, if_false,
            List.take_succ_cons]
          exact ih3

/-- Claim C7 (confirmed): changing exactly one matching event's Callback away
from its expected path value — the event that is the `j`-th match, expected
to carry `Path[j mod L]` — increments the mismatch counter by exactly one and
leaves the number and values of the emitted response times, and hence the
emitted Result, unchanged. -/
theorem C7_callback_flip (c : Chain) (es : List Event) (k : Nat) (v : Int)
    (hk : k < es.length)
    (hchain : (es.getD k default).Chain = c.ID)
    (hL : c.Path ≠ [])
    (hmatch : (es.getD k default).Callback
      = c.Path.getD ((((es.take k).filter (fun e => e.Chain == c.ID)).length)
          % c.Path.length) 0)
    (hv : v ≠ c.Path.getD ((((es.take k).filter (fun e => e.Chain == c.ID)).length)
          % c.Path.length) 0) :
    ∃ rts m,
      extract c.Path (es.filter (fun e => e.Chain == c.ID)) = some (rts, m) ∧
      extract c.Path ((es.set k { es.getD k default with Callback := v }).filter
        (fun e => e.Chain == c.ID)) = some (rts, m + 1) ∧
      (analyzeChain c (es.set k { es.getD k default with Callback := v })).map
          ChainReport.result
        = (analyzeChain c es).map ChainReport.result := by
  have hL0 : c.Path.length ≠ 0 := by
    intro h
    exact hL (List.length_eq_zero.mp h)
  have he2 : ({ es.getD k default with Callback := v } : Event).Chain = c.ID := hchain
  obtain ⟨hfs, hgd, hjlt⟩ :=
    filter_set_callback c.ID es k { es.getD k default with Callback := v } hk hchain he2
  have hmatch2 : ((es.filter (fun e => e.Chain == c.ID)).getD
      (((es.take k).filter (fun e => e.Chain == c.ID)).length) default).Callback
      = c.Path.getD ((((es.take k).filter (fun e => e.Chain == c.ID)).length)
          % c.Path.length) 0 := by
    rw [hgd]
    exact hmatch
  obtain ⟨rts, m, hx1, hx2⟩ :=
    extract_set_callback c.Path (es.filter (fun e => e.Chain == c.ID))
      (((es.take k).filter (fun e => e.Chain == c.ID)).length) v hL0 hjlt hmatch2 hv
  have hset : (es.set k { es.getD k default with Callback := v }).filter
      (fun e => e.Chain == c.ID)
      = (es.filter (fun e => e.Chain == c.ID)).set
          (((es.take k).filter (fun e => e.Chain == c.ID)).length)
          { (es.filter (fun e => e.Chain == c.ID)).getD
              (((es.take k).filter (fun e => e.Chain == c.ID)).length) default
            with Callback := v } := by
    rw [hgd]
    exact hfs
  have hx2b : extract c.Path ((es.set k { es.getD k default with Callback := v }).filter
      (fun e => e.Chain == c.ID)) = some (rts, m + 1) := by
    rw [hset]
    exact hx2
  exact ⟨rts, m, hx1, hx2b,
    analyzeChain_result_congr c es (es.set k { es.getD k default with Callback := v })
      rts m (m + 1) hx1 hx2b⟩

/-- Claim C7, witness: the theorem applied to a two-event perfect input for
`cPair`, flipping the first event's callback from the expected `1` to `9`. -/
theorem C7_witness :
    ∃ rts m,
      extract cPair.Path (([⟨0, 0, 1, 0, 10⟩, ⟨0, 0, 2, 10, 5⟩] : List Event).filter
        (fun e => e.Chain == cPair.ID)) = some (rts, m) ∧
      extract cPair.Path ((([⟨0, 0, 1, 0, 10⟩, ⟨0, 0, 2, 10, 5⟩] : List Event).set 0
          { ([⟨0, 0, 1, 0, 10⟩, ⟨0, 0, 2, 10, 5⟩] : List Event).getD 0 default
            with Callback := 9 }).filter
        (fun e => e.Chain == cPair.ID)) = some (rts, m + 1) ∧
      (analyzeChain cPair (([⟨0, 0, 1, 0, 10⟩, ⟨0, 0, 2, 10, 5⟩] : List Event).set 0
          { ([⟨0, 0, 1, 0, 10⟩, ⟨0, 0, 2, 10, 5⟩] : List Event).getD 0 default
            with Callback := 9 })).map ChainReport.result
        = (analyzeChain cPair [⟨0, 0, 1, 0, 10⟩, ⟨0, 0, 2, 10, 5⟩]).map
            ChainReport.result :=
  C7_callback_flip cPair [⟨0, 0, 1, 0, 10⟩, ⟨0, 0, 2, 10, 5⟩] 0 9 (by decide)
    (by decide) (by decide) (by decide) (by decide)

/-- Claim C8, counterexample: chain `cPair` (path `[1,2]`) with a single
matching event of wrong callback has mismatch count `1 > 0`, yet its
diagnostics are exactly `[analyzingChain 0 1, noResponseTimes 0]` — the
`continue` for the empty response-time list (line 235) is reached before the
mismatch report (line 239), so the nonzero mismatch counter is not
reported. -/
theorem C8_counterexample :
    extract cPair.Path [⟨0, 0, 9, 0, 5⟩] = some ([], 1) ∧
    analyzeChain cPair [⟨0, 0, 9, 0, 5⟩]
      = some ⟨none, [Diagnostic.analyzingChain 0 1, Diagnostic.noResponseTimes 0]⟩ := by
  decide

/-- Claim C8 (amended): a nonzero mismatch counter is reported (count and
total matching-event count) after processing — but only when at least one
response time was computed; a chain whose response-time list is empty is
skipped by the early `continue` before the mismatch report. -/
theorem C8_mismatch_report (c : Chain) (es : List Event) (rep : ChainReport)
    (rts : List Int) (m : Nat)
    (h1 : analyzeChain c es = some rep)
    (h2 : extract c.Path (es.filter (fun e => e.Chain == c.ID)) = some (rts, m))
    (hm : 0 < m) (hrts : rts ≠ []) :
    Diagnostic.mismatches m (es.filter (fun e => e.Chain == c.ID)).length
      ∈ rep.diags := by
  simp only [analyzeChain, h2] at h1
  cases rts with
  | nil => exact absurd rfl hrts
  | cons hd tl =>
    simp only [Option.some.injEq] at h1
    rw [← h1]
    simp [hm]

/-- Claim C8, witness: the amended theorem applied to a two-event input for
`cPair` whose first callback is wrong: one cycle completes and the mismatch
diagnostic `1 of 2` is present. -/
theorem C8_witness :
    Diagnostic.mismatches 1
        (([⟨0, 0, 9, 0, 5⟩, ⟨0, 0, 2, 3, 4⟩] : List Event).filter
          (fun e => e.Chain == cPair.ID)).length
      ∈ (⟨some { ID := 0, WCRT_us := 7, ACRT_us := 7, BCRT_us := 7 },
          [Diagnostic.analyzingChain 0 2, Diagnostic.mismatches 1 2]⟩ : ChainReport).diags :=
  C8_mismatch_report cPair [⟨0, 0, 9, 0, 5⟩, ⟨0, 0, 2, 3, 4⟩]
    ⟨some { ID := 0, WCRT_us := 7, ACRT_us := 7, BCRT_us := 7 },
     [Diagnostic.analyzingChain 0 2, Diagnostic.mismatches 1 2]⟩
    [7] 1 (by decide) (by decide) (by decide) (by decide)
